import Mathlib

/-!
Shallow embedding of the MRtrix connectome-exemplar accumulator
(`src/dwi/tractography/connectome/exemplar.cpp`) and of the MRtrix image
header reader (`lib/image/format/mrtrix_utils.cpp`), with theorems settling
the frozen claims about them.

Conventions of the embedding:
* C++ `float` arithmetic is idealised as exact rational arithmetic (`ℚ`).
* `uint32_t` / `size_t` values are `ℕ` with an explicit `% 2 ^ 32` /
  `% 2 ^ 64` at the operations where the machine width could matter
  (the product `(in.size() - 1) * i` and the float-to-`uint32_t` cast of
  `std::floor`).  Theorems carry the corresponding size hypotheses.
* the `assert` statements of the source are modelled as `Except` failures
  (`ExemplarError.invalidState`, `ExemplarError.nodeOrderMismatch`).
* the `do … while` resampling loop of `Exemplar::finalize`, whose
  termination is exactly what claim C10 questions, is modelled with an
  explicit fuel parameter; `none` means the fuel ran out.
-/

attribute [local semireducible] Rat.mul Rat.add Rat.sub Rat.inv

namespace MRtrixModel

/-- 3-D point with exact rational coordinates (idealised `Point<float>`). -/
structure Point where
  x : ℚ
  y : ℚ
  z : ℚ
deriving DecidableEq, Repr

instance : Inhabited Point := ⟨⟨0, 0, 0⟩⟩

instance : Add Point := ⟨fun p q => ⟨p.x + q.x, p.y + q.y, p.z + q.z⟩⟩

instance : SMul ℚ Point := ⟨fun a p => ⟨a * p.x, a * p.y, a * p.z⟩⟩

/-- Squared Euclidean distance (`dist2` of the source). -/
def dist2 (p q : Point) : ℚ :=
  (p.x - q.x) ^ 2 + (p.y - q.y) ^ 2 + (p.z - q.z) ^ 2

/-- An ordered node pair, as carried by `Tractography::Connectome::Streamline`. -/
abbrev NodePair := ℕ × ℕ

/-- Input streamline: point sequence, weight, assigned (ordered) node pair. -/
structure Streamline where
  points : List Point
  weight : ℚ
  nodes : NodePair
deriving DecidableEq, Repr

/-- The exemplar accumulator state (fields of class `Exemplar`). -/
structure Exemplar where
  points : List Point
  weight : ℚ
  nodes : NodePair
  node_COMs : Point × Point
  is_finalized : Bool
deriving DecidableEq, Repr

/-- Contract violations signalled by the source's `assert`s. -/
inductive ExemplarError where
  | invalidState
  | nodeOrderMismatch
deriving DecidableEq, Repr

/-- Body of the accumulation loop (exemplar.cpp lines 66-73) at a given
continuous index `t`: `const uint32_t lower = std::floor (interp_pos)`
(hence the `% 2 ^ 32` of the float-to-`uint32_t` cast), `mu = t - lower`,
the endpoint guard `lower == in.size()-1`, else linear interpolation. -/
def sampleBranch (inPts : List Point) (t : ℚ) : Point :=
  let M := inPts.length
  let lower : ℕ := (⌊t⌋).toNat % 2 ^ 32
  let mu : ℚ := t - (lower : ℚ)
  if lower = M - 1 then inPts.getD (M - 1) default
  else ((1 - mu) • inPts.getD lower default) + (mu • inPts.getD (lower + 1) default)

/-- The sampled point contributed to accumulation slot `i`
(exemplar.cpp lines 62-73): `interp_pos = (in.size() - 1) * i / float(size())`
— the product `(in.size() - 1) * i` is a `size_t` product (hence the
`% 2 ^ 64`) — negated to `in.size() - 1 - interp_pos` when reversed. -/
def sampleAt (inPts : List Point) (reversed : Bool) (N i : ℕ) : Point :=
  let M := inPts.length
  let t0 : ℚ := ((((M - 1) * i) % 2 ^ 64 : ℕ) : ℚ) / (N : ℚ)
  sampleBranch inPts (if reversed then ((M - 1 : ℕ) : ℚ) - t0 else t0)

/-- The state change performed by `Exemplar::add` once the asserts passed:
slot-wise weighted accumulation plus the running-weight update. -/
def addCore (ex : Exemplar) (s : Streamline) : Exemplar :=
  { ex with
    points := (List.range ex.points.length).map
      (fun i => ex.points.getD i default +
        s.weight • sampleAt s.points (decide (s.nodes ≠ ex.nodes)) ex.points.length i)
    weight := ex.weight + s.weight }

/-- `Exemplar::add` (exemplar.cpp lines 50-76): the `assert (!is_finalized)`
and the node-order `assert` are modelled as `Except` failures. -/
def addStreamline (ex : Exemplar) (s : Streamline) : Except ExemplarError Exemplar :=
  if ex.is_finalized then .error .invalidState
  else if s.nodes = ex.nodes ∨ (s.nodes.1 = ex.nodes.2 ∧ s.nodes.2 = ex.nodes.1) then
    .ok (addCore ex s)
  else .error .nodeOrderMismatch

/-- Sequential `add` of a list of streamlines. -/
def addAll (ex : Exemplar) (l : List Streamline) : Except ExemplarError Exemplar :=
  match l with
  | [] => .ok ex
  | s :: rest => (addStreamline ex s).bind (fun e => addAll e rest)

/-- Linear interpolation between two points. -/
def lerp (a b : Point) (mu : ℚ) : Point := (1 - mu) • a + mu • b

/-- Signed-index read of the point buffer (`(*this)[index]` with `int32_t`
index; all reads performed by the source are in bounds when it is run on
its intended inputs, out-of-range reads yield `default`). -/
def getP (pts : List Point) (i : ℤ) : Point := pts.getD i.toNat default

/-- The six bisection iterations of `Exemplar::finalize`
(exemplar.cpp lines 130-139), tracked as the pair of the `lower` and
`upper` interpolation bounds; the tested candidate point of each iteration
is `lerp a b ((lower+upper)/2)`. -/
def bisectBounds (a b c : Point) (s2 : ℚ) : ℕ → ℚ × ℚ → ℚ × ℚ
  | 0, lu => lu
  | n + 1, lu =>
    let mu := (lu.1 + lu.2) / 2
    if s2 < dist2 (lerp a b mu) c then bisectBounds a b c s2 n (lu.1, mu)
    else bisectBounds a b c s2 n (mu, lu.2)

/-- The vertex accepted after the six bisection iterations. -/
def bisectPoint (a b c : Point) (s2 : ℚ) : Point :=
  let lu := bisectBounds a b c s2 6 (0, 1)
  lerp a b ((lu.1 + lu.2) / 2)

/-- The inner skip loop of the resampler (exemplar.cpp lines 122-123):
advance the cursor while the next point is still closer than one step to
the last accepted vertex.  The loop moves the cursor monotonically inside
`[0, pts.length)`, so `pts.length` fuel always reaches the fixpoint. -/
def skipAux (pts : List Point) (stp : ℤ) (s2 : ℚ) (back : Point) : ℕ → ℤ → ℤ
  | 0, index => index
  | n + 1, index =>
    if 0 ≤ index + stp ∧ index + stp < (pts.length : ℤ) ∧
        dist2 (getP pts (index + stp)) back < s2 then
      skipAux pts stp s2 back n (index + stp)
    else index

/-- One arm of the resampling `do … while` loop (exemplar.cpp lines
121-142): repeatedly skip, then either accept the boundary vertex and stop,
or accept a bisected vertex and continue.  `none` = fuel exhausted. -/
def armLoop (pts : List Point) (stp : ℤ) (s2 : ℚ) :
    ℕ → ℤ → List Point → Option (List Point)
  | 0, _, _ => none
  | fuel + 1, index, verts =>
    let i := skipAux pts stp s2 (verts.getLastD default) pts.length index
    if i = 0 ∨ i = (pts.length : ℤ) - 1 then
      some (verts ++ [getP pts i])
    else
      armLoop pts stp s2 fuel i
        (verts ++ [bisectPoint (getP pts i) (getP pts (i + stp)) (verts.getLastD default) s2])

/-- Midpoint-outward fixed-step resampling (exemplar.cpp lines 110-144):
backward arm from the middle index, reverse, then forward arm. -/
def resample (pts : List Point) (s2 : ℚ) (fuel : ℕ) : Option (List Point) :=
  (armLoop pts (-1) s2 fuel (((pts.length + 1) / 2 : ℕ) : ℤ)
      [getP pts (((pts.length + 1) / 2 : ℕ) : ℤ)]).bind
    (fun v1 => armLoop pts 1 s2 fuel (((pts.length + 1) / 2 : ℕ) : ℤ) v1.reverse)

/-- Normalisation by the accumulated weight (exemplar.cpp lines 95-97). -/
def normPoints (ex : Exemplar) : List Point :=
  ex.points.map (fun p => ex.weight⁻¹ • p)

/-- Endpoint-convergence blend (exemplar.cpp lines 99-108):
`K = EXEMPLAR_ENDPOINT_CONVERGE_FRACTION * size()` truncated to `uint32_t`,
the first `K` slots blended toward the first node centre of mass and the
last `K` slots toward the second. -/
def blendPoints (src : List Point) (com1 com2 : Point) : List Point :=
  let N := src.length
  let K := N / 4
  (List.range N).map (fun i =>
    let p := src.getD i default
    if i < K then ((i : ℚ) / (K : ℚ)) • p + (1 - (i : ℚ) / (K : ℚ)) • com1
    else if N - K ≤ i then
      (((N - 1 - i : ℕ) : ℚ) / (K : ℚ)) • p +
        (1 - ((N - 1 - i : ℕ) : ℚ) / (K : ℚ)) • com2
    else p)

/-- `Exemplar::finalize` (exemplar.cpp lines 81-147).  The degenerate
branch (zero weight or diagonal node pair) mirrors the source exactly: it
replaces the points by the two node centres of mass and returns *without*
touching `is_finalized` (the flag is only set at line 146, after the
resampling path).  `.ok none` means the resampling loop did not terminate
within the given fuel. -/
def finalizeEx (stepSize : ℚ) (fuel : ℕ) (ex : Exemplar) :
    Except ExemplarError (Option Exemplar) :=
  if ex.is_finalized then .error .invalidState
  else if ex.weight = 0 ∨ ex.nodes.1 = ex.nodes.2 then
    .ok (some { ex with points := [ex.node_COMs.1, ex.node_COMs.2] })
  else
    match resample (blendPoints (normPoints ex) ex.node_COMs.1 ex.node_COMs.2)
        (stepSize ^ 2) fuel with
    | none => .ok none
    | some verts => .ok (some { ex with points := verts, is_finalized := true })

/-- Branch body of the sampling rule as the specification words it: exact
arithmetic, `lower = floor t` as a plain integer, no machine-width
reduction. -/
def specBranch (stream : List Point) (t : ℚ) : Point :=
  let M := stream.length
  let lower : ℤ := ⌊t⌋
  let mu : ℚ := t - lower
  if lower = (M : ℤ) - 1 then stream.getD (M - 1) default
  else ((1 - mu) • stream.getD lower.toNat default) +
    (mu • stream.getD (lower.toNat + 1) default)

/-- The per-slot sampling rule exactly as the specification words it:
continuous index `t = (M-1)*i/N` (replaced by `M-1-t` when reversed),
`lower = floor t`, `mu = t - lower`, sampled point `stream[M-1]` if
`lower = M-1`, else `(1-mu)*stream[lower] + mu*stream[upper]`.  Kept
separate from `sampleAt` (the code-side definition) so that claim C1 is a
genuine refinement. -/
def specSampledPoint (stream : List Point) (reversed : Bool) (N i : ℕ) : Point :=
  let t0 : ℚ := ((stream.length : ℚ) - 1) * i / N
  specBranch stream (if reversed then ((stream.length : ℚ) - 1) - t0 else t0)

/-- Point-reversal of a streamline together with the swap of its node pair. -/
def reverseStreamline (s : Streamline) : Streamline :=
  { points := s.points.reverse, weight := s.weight, nodes := (s.nodes.2, s.nodes.1) }

/-! ## Header reader (`lib/image/format/mrtrix_utils.cpp`, `read_mrtrix_header`)

Key/value lines arrive already classified and parsed (the text scanning of
`File::KeyValue::next`, `parse_ints` and `parse_floats` is outside the two
source files); free-text values are modelled as lists of character codes.
`DataType::parse` and `Axis::parse` are likewise external and are modelled
as non-failing (the raw value is stored). -/

/-- One key/value line of an MRtrix header, with its parsed payload. -/
inductive HEntry where
  | dim (v : List ℤ)
  | vox (v : List ℚ)
  | layout (v : List ℕ)
  | datatype (v : List ℕ)
  | scaling (v : List ℚ)
  | comments (v : List ℕ)
  | units (v : List (List ℕ))
  | labels (v : List (List ℕ))
  | transform (v : List ℚ)
  | dw_scheme (v : List ℚ)
  | other (k : List ℕ) (v : List ℕ)
deriving DecidableEq, Repr

/-- The local accumulation variables of `read_mrtrix_header`'s while loop. -/
structure HAcc where
  dim : List ℤ := []
  vox : List ℚ := []
  layout : List ℕ := []
  dtype : List ℕ := []
  scaling : List ℚ := []
  comments : List (List ℕ) := []
  units : List (List ℕ) := []
  labels : List (List ℕ) := []
  transform : List ℚ := []
  dw : List ℚ := []
  others : List (List ℕ × List ℕ) := []
deriving DecidableEq, Repr

/-- `H[key] += '\n'` (code 10) when nonempty, then `H[key] += value`
(mrtrix_utils.cpp lines 61-65). -/
def addOther : List (List ℕ × List ℕ) → List ℕ → List ℕ → List (List ℕ × List ℕ)
  | [], k, v => [(k, v)]
  | (k0, v0) :: rest, k, v =>
    if k0 = k then (k0, if v0 = [] then v else v0 ++ 10 :: v) :: rest
    else (k0, v0) :: addOther rest k v

/-- One iteration of the key dispatch (mrtrix_utils.cpp lines 43-66):
`dim`, `vox`, `layout`, `datatype`, `scaling`, `units`, `labels` overwrite,
`comments` appends a line, `transform` and `dw_scheme` concatenate values. -/
def accEntry (a : HAcc) : HEntry → HAcc
  | .dim v => { a with dim := v }
  | .vox v => { a with vox := v }
  | .layout v => { a with layout := v }
  | .datatype v => { a with dtype := v }
  | .scaling v => { a with scaling := v }
  | .comments v => { a with comments := a.comments ++ [v] }
  | .units v => { a with units := v }
  | .labels v => { a with labels := v }
  | .transform v => { a with transform := a.transform ++ v }
  | .dw_scheme v => { a with dw := a.dw ++ v }
  | .other k v => { a with others := addOther a.others k v }

/-- The whole `while (kv.next())` loop. -/
def accumulate (entries : List HEntry) : HAcc := entries.foldl accEntry {}

/-- Failures thrown by `read_mrtrix_header` after the loop. -/
inductive HeaderError where
  | missingDim
  | invalidDim
  | missingVox
  | invalidVox
  | missingDatatype
  | missingLayout
  | invalidTransform
  | invalidScaling
deriving DecidableEq, Repr

/-- The populated image header (the fields of `MR::Image::Header` that
`read_mrtrix_header` sets). -/
structure MHeader where
  ndim : ℕ
  dims : List ℤ
  voxs : List ℚ
  dtype : List ℕ
  layout : List ℕ
  transform3x4 : Option (List ℚ)
  dw_scheme : Option (List ℚ)
  scalingPair : Option (ℚ × ℚ)
  comments : List (List ℕ)
  others : List (List ℕ × List ℕ)
deriving DecidableEq, Repr

/-- The twelve indices `transform[0] … transform[11]` read by the
3-row-by-4-column transform fill loop (mrtrix_utils.cpp lines 103-106). -/
def transformFillIndices : List ℕ := List.range 12

/-- Whether every access of the transform fill loop is inside the bounds of
the accumulated transform value list. -/
def transformAccessesInBounds (t : List ℚ) : Bool :=
  transformFillIndices.all (fun i => decide (i < t.length))

/-- The header produced when no check throws: all fields set from the
accumulated values; the diffusion scheme is kept only when nonempty with a
value count divisible by 4 (mrtrix_utils.cpp lines 112-123). -/
def mkHeader (a : HAcc) : MHeader where
  ndim := a.dim.length
  dims := a.dim
  voxs := (List.range a.dim.length).map (fun n => a.vox.getD n 0)
  dtype := a.dtype
  layout := a.layout
  transform3x4 := if a.transform = [] then none
    else some (transformFillIndices.map (fun k => a.transform.getD k 0))
  dw_scheme := if a.dw ≠ [] ∧ a.dw.length % 4 = 0 then some a.dw else none
  scalingPair := if a.scaling = [] then none
    else some (a.scaling.getD 0 0, a.scaling.getD 1 0)
  comments := a.comments
  others := a.others

/-- The validation / header-population phase of `read_mrtrix_header`
(mrtrix_utils.cpp lines 68-131), in source order; the malformed
`dw_scheme` case is *not* an error branch. -/
def buildFromAcc (a : HAcc) : Except HeaderError MHeader :=
  if a.dim = [] then .error .missingDim
  else if ∃ d ∈ a.dim, d < 1 then .error .invalidDim
  else if a.vox = [] then .error .missingVox
  else if ∃ n ∈ List.range a.dim.length, a.vox.getD n 0 < 0 then .error .invalidVox
  else if a.dtype = [] then .error .missingDatatype
  else if a.layout = [] then .error .missingLayout
  else if a.transform ≠ [] ∧ a.transform.length < 9 then .error .invalidTransform
  else if a.scaling ≠ [] ∧ a.scaling.length ≠ 2 then .error .invalidScaling
  else .ok (mkHeader a)

/-- `read_mrtrix_header`: accumulate all key/value lines, then validate. -/
def readHeader (entries : List HEntry) : Except HeaderError MHeader :=
  buildFromAcc (accumulate entries)

/-- Success test for an `Except` result. -/
def eIsOk {ε α : Type} (e : Except ε α) : Bool :=
  match e with
  | .ok _ => true
  | .error _ => false

/-- The fatal conditions exactly as claim C8 words them: `dim`, `vox`,
`datatype` or `layout` absent, a dimension `< 1`, a (checked) voxel size
`< 0`, a nonempty transform with fewer than 9 values, or a nonempty scaling
list whose length is not 2. -/
def mandatoryFailure (a : HAcc) : Prop :=
  a.dim = [] ∨ (∃ d ∈ a.dim, d < 1) ∨ a.vox = [] ∨
    (∃ n ∈ List.range a.dim.length, a.vox.getD n 0 < 0) ∨
    a.dtype = [] ∨ a.layout = [] ∨
    (a.transform ≠ [] ∧ a.transform.length < 9) ∨
    (a.scaling ≠ [] ∧ a.scaling.length ≠ 2)

instance (a : HAcc) : Decidable (mandatoryFailure a) := by
  unfold mandatoryFailure; infer_instance

/-! ## Concrete instances used by counterexamples and witnesses -/

/-- Origin point. -/
def pz : Point := ⟨0, 0, 0⟩

/-- A non-degenerate exemplar whose averaged polyline has one long segment
(from `(2,0,0)` to `(6,0,0)`); finalizing with `step_size = 1` violates the
global `±2⁻⁶` spacing bound at an interior pair. -/
def exC4 : Exemplar :=
  { points := [⟨0, 0, 0⟩, ⟨1, 0, 0⟩, ⟨2, 0, 0⟩, ⟨6, 0, 0⟩], weight := 1,
    nodes := (1, 2), node_COMs := (⟨0, 0, 0⟩, ⟨6, 0, 0⟩), is_finalized := false }

/-- The finalized polyline of `exC4`. -/
def c4points : List Point :=
  match finalizeEx 1 10 exC4 with
  | .ok (some e) => e.points
  | _ => []

/-- Whether finalizing `exC4` succeeded within the fuel. -/
def c4success : Bool :=
  match finalizeEx 1 10 exC4 with
  | .ok (some _) => true
  | _ => false

/-- A non-degenerate exemplar with only `N = 3` accumulation slots, so the
endpoint-convergence count `K = floor(0.25 * 3)` is zero. -/
def exC7 : Exemplar :=
  { points := [⟨0, 0, 0⟩, ⟨5, 0, 0⟩, ⟨9, 0, 0⟩], weight := 1,
    nodes := (1, 2), node_COMs := (⟨0, 0, 0⟩, ⟨9, 0, 0⟩), is_finalized := false }

/-- The finalized polyline of `exC7`. -/
def c7points : List Point :=
  match finalizeEx 1 10 exC7 with
  | .ok (some e) => e.points
  | _ => []

/-- The spec's concrete scenario after its single `add`: `N = 4`, centroids
`(0,0,0)` / `(10,0,0)`, accumulated points sampled from the 5-point
streamline at continuous indices `0,1,2,3`, weight 1. -/
def exW : Exemplar :=
  { points := [⟨0, 0, 0⟩, ⟨2, 0, 0⟩, ⟨5, 0, 0⟩, ⟨8, 0, 0⟩], weight := 1,
    nodes := (1, 2), node_COMs := (⟨0, 0, 0⟩, ⟨10, 0, 0⟩), is_finalized := false }

/-- The result of `finalize(step_size = 5/2)` on `exW`. -/
def exWout : Exemplar :=
  { exW with
    points := [⟨0, 0, 0⟩, ⟨319/128, 0, 0⟩, ⟨5, 0, 0⟩, ⟨965/128, 0, 0⟩, ⟨10, 0, 0⟩],
    is_finalized := true }

/-- A degenerate exemplar: zero accumulated weight. -/
def exDeg : Exemplar :=
  { points := [⟨3, 0, 0⟩, ⟨4, 0, 0⟩, ⟨7, 0, 0⟩], weight := 0,
    nodes := (2, 5), node_COMs := (⟨1, 0, 0⟩, ⟨2, 0, 0⟩), is_finalized := false }

/-- What the degenerate branch of `finalize` leaves behind for `exDeg`:
the two centres of mass, with `is_finalized` *still false*. -/
def exDegOut : Exemplar := { exDeg with points := [⟨1, 0, 0⟩, ⟨2, 0, 0⟩] }

/-- A streamline matching `exDeg`'s node pair. -/
def sDeg : Streamline :=
  { points := [⟨0, 0, 0⟩, ⟨1, 0, 0⟩], weight := 1, nodes := (2, 5) }

/-- A non-degenerate exemplar whose averaged polyline contains a segment of
length `200 > 128 * step_size`; the resampling loop gets stuck on it. -/
def exC10 : Exemplar :=
  { points := [⟨0, 0, 0⟩, ⟨0, 0, 0⟩, ⟨200, 0, 0⟩, ⟨300, 0, 0⟩], weight := 1,
    nodes := (1, 2), node_COMs := (⟨0, 0, 0⟩, ⟨300, 0, 0⟩), is_finalized := false }

/-- The normalised, blended point buffer of `exC10`. -/
def ptsC10 : List Point := [⟨0, 0, 0⟩, ⟨0, 0, 0⟩, ⟨200, 0, 0⟩, ⟨300, 0, 0⟩]

/-- The vertex the stuck bisection keeps reproducing: `lerp` of the segment
from `(200,0,0)` toward `(0,0,0)` at parameter `1/128`. -/
def pStuck : Point := ⟨3175/16, 0, 0⟩

/-- 5-point test streamline of the spec's concrete scenario. -/
def sW1 : Streamline :=
  { points := [⟨0, 0, 0⟩, ⟨2, 0, 0⟩, ⟨5, 0, 0⟩, ⟨8, 0, 0⟩, ⟨10, 0, 0⟩],
    weight := 1, nodes := (1, 2) }

/-- `sW1` point-reversed with swapped node order. -/
def sW2 : Streamline :=
  { points := [⟨10, 0, 0⟩, ⟨8, 0, 0⟩, ⟨5, 0, 0⟩, ⟨2, 0, 0⟩, ⟨0, 0, 0⟩],
    weight := 1, nodes := (2, 1) }

/-- An empty accumulator exemplar matching `sW1`/`sW2`. -/
def exAcc : Exemplar :=
  { points := [pz, pz, pz, pz], weight := 0,
    nodes := (1, 2), node_COMs := (pz, ⟨10, 0, 0⟩), is_finalized := false }

/-- Header entry list with valid mandatory fields and a malformed
(3-value) diffusion scheme. -/
def ents0 : List HEntry :=
  [.dim [2], .vox [1], .datatype [100], .layout [48], .dw_scheme [1, 2, 3]]

/-! ## Generic helper lemmas -/

@[ext] theorem Point.ext_coords {p q : Point}
    (hx : p.x = q.x) (hy : p.y = q.y) (hz : p.z = q.z) : p = q := by
  cases p; cases q; cases hx; cases hy; cases hz; rfl

@[simp] theorem Point.add_x (p q : Point) : (p + q).x = p.x + q.x := rfl
@[simp] theorem Point.add_y (p q : Point) : (p + q).y = p.y + q.y := rfl
@[simp] theorem Point.add_z (p q : Point) : (p + q).z = p.z + q.z := rfl
@[simp] theorem Point.smul_x (a : ℚ) (p : Point) : (a • p).x = a * p.x := rfl
@[simp] theorem Point.smul_y (a : ℚ) (p : Point) : (a • p).y = a * p.y := rfl
@[simp] theorem Point.smul_z (a : ℚ) (p : Point) : (a • p).z = a * p.z := rfl

theorem lerp_zero (a b : Point) : lerp a b 0 = a := by
  show (⟨_, _, _⟩ : Point) = a
  simp [lerp]

theorem lerp_one (a b : Point) : lerp a b 1 = b := by
  show (⟨_, _, _⟩ : Point) = b
  simp [lerp]

theorem finalizeEx_nondeg (stepSize : ℚ) (fuel : ℕ) (ex : Exemplar)
    (hf : ex.is_finalized = false) (hw : ¬ex.weight = 0) (hd : ¬ex.nodes.1 = ex.nodes.2) :
    finalizeEx stepSize fuel ex =
      .ok ((resample (blendPoints (normPoints ex) ex.node_COMs.1 ex.node_COMs.2)
        (stepSize ^ 2) fuel).map
        (fun verts => { ex with points := verts, is_finalized := true })) := by
  unfold finalizeEx
  rw [if_neg (by simp [hf]), if_neg (by simp [hw, hd])]
  cases h : resample (blendPoints (normPoints ex) ex.node_COMs.1 ex.node_COMs.2)
      (stepSize ^ 2) fuel <;> simp

/-! ## Claim C2 -/

/-- C2: for every Exemplar with zero accumulated weight, and for every
Exemplar whose node pair is diagonal, `finalize` yields exactly the
two-point sequence `[node_COMs.first, node_COMs.second]`, for any step
size, any fuel and any accumulated buffer contents. -/
theorem claim2_degenerate_branch (stepSize : ℚ) (fuel : ℕ) (ex : Exemplar)
    (hf : ex.is_finalized = false)
    (hdeg : ex.weight = 0 ∨ ex.nodes.1 = ex.nodes.2) :
    (finalizeEx stepSize fuel ex).map (Option.map Exemplar.points) =
      .ok (some [ex.node_COMs.1, ex.node_COMs.2]) := by
  unfold finalizeEx
  rw [if_neg (by simp [hf]), if_pos hdeg]
  rfl

/-- Witness for C2 at the concrete zero-weight exemplar `exDeg`. -/
theorem claim2_degenerate_branch_witness :
    (finalizeEx 3 7 exDeg).map (Option.map Exemplar.points) =
      .ok (some [exDeg.node_COMs.1, exDeg.node_COMs.2]) :=
  claim2_degenerate_branch 3 7 exDeg rfl (Or.inl rfl)

/-! ## Claim C3 (code bug) -/

/-- C3 fails on the code: the degenerate branch of `Exemplar::finalize`
(exemplar.cpp line 92) returns *before* the `is_finalized = true`
assignment at line 146.  Concretely, finalizing the zero-weight exemplar
`exDeg` succeeds but leaves `is_finalized = false`, after which both a
further `add` and a further `finalize` still succeed instead of failing
with InvalidState. -/
theorem claim3_degenerate_branch_skips_flag :
    finalizeEx 1 8 exDeg = .ok (some exDegOut) ∧
    exDegOut.is_finalized = false ∧
    addStreamline exDegOut sDeg = .ok (addCore exDegOut sDeg) ∧
    finalizeEx 1 8 exDegOut = .ok (some exDegOut) :=
  ⟨rfl, rfl, rfl, rfl⟩

/-! ## Claim C9 (corrected) -/

/-- C9 is false as stated: an accumulated transform list with exactly 9
values passes the `transform.size() < 9` guard, yet the 3x4 fill loop's
accesses `transform[9]`, `transform[10]`, `transform[11]` are out of
bounds. -/
theorem claim9_counterexample :
    9 ≤ (List.replicate 9 (0 : ℚ)).length ∧
    transformAccessesInBounds (List.replicate 9 (0 : ℚ)) = false := by
  decide

/-- C9 amended: the twelve accesses `transform[0] … transform[11]` of the
fill loop are all within bounds exactly when the accumulated transform
list has at least 12 values; the `size < 9` guard alone does not suffice. -/
theorem claim9_fill_accesses_in_bounds (t : List ℚ) (h12 : 12 ≤ t.length) :
    transformAccessesInBounds t = true := by
  unfold transformAccessesInBounds transformFillIndices
  rw [List.all_eq_true]
  intro i hi
  simp only [List.mem_range] at hi
  exact decide_eq_true (lt_of_lt_of_le hi h12)

/-- Witness for the amended C9 at a 12-value transform list. -/
theorem claim9_fill_accesses_in_bounds_witness :
    transformAccessesInBounds (List.replicate 12 (0 : ℚ)) = true :=
  claim9_fill_accesses_in_bounds (List.replicate 12 (0 : ℚ)) (by decide)

/-! ## Claim C4 (corrected) -/

/-- C4 is false as stated: finalizing `exC4` with `step_size = 1` yields an
8-point polyline whose consecutive pair `(3,4)` — an interior pair, not one
of the two boundary segments `(0,1)` and `(6,7)` — has squared spacing
`1089/1024 = (33/32)²`, strictly above `(step_size * (1 + 2⁻⁶))²`. -/
theorem claim4_counterexample :
    c4success = true ∧ c4points.length = 8 ∧
    dist2 (c4points.getD 3 default) (c4points.getD 4 default) = 1089 / 1024 ∧
    decide ((1089 / 1024 : ℚ) ≤ ((1 : ℚ) * (1 + 1 / 64)) ^ 2) = false ∧
    1 ≤ 3 ∧ 3 + 1 ≤ 8 - 2 := by
  decide

theorem bisectBounds_invariant (a b c : Point) (s2 : ℚ) :
    ∀ (n : ℕ) (l u : ℚ), l ≤ u →
      dist2 (lerp a b l) c ≤ s2 → s2 ≤ dist2 (lerp a b u) c →
      (bisectBounds a b c s2 n (l, u)).2 - (bisectBounds a b c s2 n (l, u)).1 =
          (u - l) / 2 ^ n ∧
        l ≤ (bisectBounds a b c s2 n (l, u)).1 ∧
        (bisectBounds a b c s2 n (l, u)).1 ≤ (bisectBounds a b c s2 n (l, u)).2 ∧
        (bisectBounds a b c s2 n (l, u)).2 ≤ u ∧
        dist2 (lerp a b (bisectBounds a b c s2 n (l, u)).1) c ≤ s2 ∧
        s2 ≤ dist2 (lerp a b (bisectBounds a b c s2 n (l, u)).2) c := by
  intro n
  induction n with
  | zero =>
    intro l u hlu h0 h1
    refine ⟨by simp [bisectBounds], ?_, ?_, ?_, ?_, ?_⟩ <;>
      simp [bisectBounds, hlu, h0, h1]
  | succ n ih =>
    intro l u hlu h0 h1
    by_cases hc : s2 < dist2 (lerp a b ((l + u) / 2)) c
    · have hstep : bisectBounds a b c s2 (n + 1) (l, u) =
          bisectBounds a b c s2 n (l, (l + u) / 2) := by
        simp only [bisectBounds]
        rw [if_pos hc]
      obtain ⟨hw, hl, hm, hu, hdl, hdu⟩ :=
        ih l ((l + u) / 2) (by linarith) h0 (le_of_lt hc)
      rw [hstep]
      refine ⟨?_, hl, hm, by linarith, hdl, hdu⟩
      rw [hw]; ring
    · have hstep : bisectBounds a b c s2 (n + 1) (l, u) =
          bisectBounds a b c s2 n ((l + u) / 2, u) := by
        simp only [bisectBounds]
        rw [if_neg hc]
      obtain ⟨hw, hl, hm, hu, hdl, hdu⟩ :=
        ih ((l + u) / 2) u (by linarith) (le_of_not_lt hc) h1
      rw [hstep]
      refine ⟨?_, by linarith, hm, hu, hdl, hdu⟩
      rw [hw]; ring

/-- C4 amended: provided the previous vertex `c` is bracketed by the
segment ends (`dist2 a c ≤ step_size² ≤ dist2 b c`), the six bisection
iterations end with `lower`/`upper` bounds `1/64` apart whose candidate
points lie on either side of `step_size²` in squared distance, and the
accepted vertex is the segment point at the midpoint of those bounds — so
its distance error is bounded by `segment_length * 2⁻⁶`, not
`step_size * 2⁻⁶`, and the claimed global `step_size * (1 ± 2⁻⁶)` bound
fails when a polyline segment is longer than `step_size` (see the
counterexample). -/
theorem claim4_amended_bisection_bracket (a b c : Point) (s2 : ℚ)
    (h0 : dist2 a c ≤ s2) (h1 : s2 ≤ dist2 b c) :
    (bisectBounds a b c s2 6 (0, 1)).2 - (bisectBounds a b c s2 6 (0, 1)).1 = 1 / 64 ∧
    0 ≤ (bisectBounds a b c s2 6 (0, 1)).1 ∧
    (bisectBounds a b c s2 6 (0, 1)).1 ≤ (bisectBounds a b c s2 6 (0, 1)).2 ∧
    (bisectBounds a b c s2 6 (0, 1)).2 ≤ 1 ∧
    dist2 (lerp a b (bisectBounds a b c s2 6 (0, 1)).1) c ≤ s2 ∧
    s2 ≤ dist2 (lerp a b (bisectBounds a b c s2 6 (0, 1)).2) c ∧
    bisectPoint a b c s2 =
      lerp a b (((bisectBounds a b c s2 6 (0, 1)).1 +
        (bisectBounds a b c s2 6 (0, 1)).2) / 2) := by
  have h0' : dist2 (lerp a b 0) c ≤ s2 := by rwa [lerp_zero]
  have h1' : s2 ≤ dist2 (lerp a b 1) c := by rwa [lerp_one]
  obtain ⟨hw, hl, hm, hu, hdl, hdu⟩ :=
    bisectBounds_invariant a b c s2 6 0 1 (by norm_num) h0' h1'
  exact ⟨by rw [hw]; norm_num, hl, hm, hu, hdl, hdu, rfl⟩

/-- Witness for the amended C4 at a concrete bracketed configuration. -/
theorem claim4_amended_bisection_bracket_witness :
    (bisectBounds pz ⟨1, 0, 0⟩ pz (1/2) 6 (0, 1)).2 -
        (bisectBounds pz ⟨1, 0, 0⟩ pz (1/2) 6 (0, 1)).1 = 1 / 64 ∧
    0 ≤ (bisectBounds pz ⟨1, 0, 0⟩ pz (1/2) 6 (0, 1)).1 ∧
    (bisectBounds pz ⟨1, 0, 0⟩ pz (1/2) 6 (0, 1)).1 ≤
      (bisectBounds pz ⟨1, 0, 0⟩ pz (1/2) 6 (0, 1)).2 ∧
    (bisectBounds pz ⟨1, 0, 0⟩ pz (1/2) 6 (0, 1)).2 ≤ 1 ∧
    dist2 (lerp pz ⟨1, 0, 0⟩ (bisectBounds pz ⟨1, 0, 0⟩ pz (1/2) 6 (0, 1)).1) pz ≤ 1/2 ∧
    1/2 ≤ dist2 (lerp pz ⟨1, 0, 0⟩ (bisectBounds pz ⟨1, 0, 0⟩ pz (1/2) 6 (0, 1)).2) pz ∧
    bisectPoint pz ⟨1, 0, 0⟩ pz (1/2) =
      lerp pz ⟨1, 0, 0⟩ (((bisectBounds pz ⟨1, 0, 0⟩ pz (1/2) 6 (0, 1)).1 +
        (bisectBounds pz ⟨1, 0, 0⟩ pz (1/2) 6 (0, 1)).2) / 2) :=
  claim4_amended_bisection_bracket pz ⟨1, 0, 0⟩ pz (1/2) (by decide) (by decide)

/-! ## Claim C10 (code bug) -/

theorem skipC10_stuck : skipAux ptsC10 (-1) 1 pStuck ptsC10.length 2 = 2 := by decide

theorem bisectC10_stuck :
    bisectPoint (getP ptsC10 2) (getP ptsC10 (2 + -1)) pStuck 1 = pStuck := by decide

theorem bisectC10_seed :
    bisectPoint (getP ptsC10 2) (getP ptsC10 (2 + -1)) (getP ptsC10 2) 1 = pStuck := by
  decide

theorem skipC10_seed : skipAux ptsC10 (-1) 1 (getP ptsC10 2) ptsC10.length 2 = 2 := by
  decide

theorem armLoopC10_stuck : ∀ (fuel : ℕ) (vs : List Point),
    vs.getLastD default = pStuck →
    armLoop ptsC10 (-1) 1 fuel 2 vs = none := by
  intro fuel
  induction fuel with
  | zero => intro vs _; rfl
  | succ n ih =>
    intro vs hlast
    simp only [armLoop, hlast, skipC10_stuck]
    rw [if_neg (by decide)]
    rw [bisectC10_stuck]
    exact ih (vs ++ [pStuck]) (List.getLastD_concat _ _ _)

theorem armLoopC10_start (fuel : ℕ) :
    armLoop ptsC10 (-1) 1 fuel 2 [getP ptsC10 2] = none := by
  cases fuel with
  | zero => rfl
  | succ n =>
    have hback : ([getP ptsC10 2]).getLastD default = getP ptsC10 2 := rfl
    simp only [armLoop, hback, skipC10_seed]
    rw [if_neg (by decide)]
    rw [bisectC10_seed]
    exact armLoopC10_stuck n _ (List.getLastD_concat _ _ _)

/-- C10 (code bug): the claim — `finalize` terminates for every
non-degenerate exemplar with finite coordinates and positive `step_size` —
is what the source intends, but the code's resampling loop provably never
terminates on `exC10` (a segment of length `200 > 128 * step_size`):
from the seed vertex the six bisection iterations accept the point at
parameter `1/128`, and from that vertex every later round accepts the very
same point again while the cursor never moves, so no amount of fuel makes
`finalize` return a polyline. -/
theorem claim10_resampling_nonterminating (fuel : ℕ) :
    finalizeEx 1 fuel exC10 = .ok none := by
  rw [finalizeEx_nondeg 1 fuel exC10 rfl (by decide) (by decide)]
  have hpts : blendPoints (normPoints exC10) exC10.node_COMs.1 exC10.node_COMs.2 =
      ptsC10 := by decide
  rw [hpts]
  have hmid : (((ptsC10.length + 1) / 2 : ℕ) : ℤ) = 2 := by decide
  have hsq : ((1 : ℚ) ^ 2) = 1 := by norm_num
  simp only [resample, hmid, hsq]
  rw [armLoopC10_start fuel]
  rfl


/-! ## Claim C7 (corrected) -/

theorem skipAux_le (pts : List Point) (s2 : ℚ) (back : Point) :
    ∀ (n : ℕ) (i : ℤ), skipAux pts (-1) s2 back n i ≤ i := by
  intro n
  induction n with
  | zero => intro i; exact le_refl i
  | succ m ih =>
    intro i
    rw [skipAux]
    split
    · exact le_trans (ih (i + -1)) (by omega)
    · exact le_refl i

theorem skipAux_ge (pts : List Point) (s2 : ℚ) (back : Point) :
    ∀ (n : ℕ) (i : ℤ), i ≤ skipAux pts 1 s2 back n i := by
  intro n
  induction n with
  | zero => intro i; exact le_refl i
  | succ m ih =>
    intro i
    rw [skipAux]
    split
    · exact le_trans (by omega) (ih (i + 1))
    · exact le_refl i

theorem armLoop_append (pts : List Point) (stp : ℤ) (s2 : ℚ) :
    ∀ (fuel : ℕ) (i : ℤ) (vs out : List Point),
      armLoop pts stp s2 fuel i vs = some out → ∃ t, out = vs ++ t := by
  intro fuel
  induction fuel with
  | zero => intro i vs out h; simp [armLoop] at h
  | succ n ih =>
    intro i vs out h
    rw [armLoop] at h
    split at h
    · exact ⟨_, (Option.some.injEq _ _ ▸ h.symm)⟩
    · obtain ⟨t, ht⟩ := ih _ _ _ h
      exact ⟨_, by rw [ht, List.append_assoc]⟩

theorem armLoop_getLast_neg (pts : List Point) (s2 : ℚ) :
    ∀ (fuel : ℕ) (i : ℤ) (vs out : List Point), i ≤ (pts.length : ℤ) - 2 →
      armLoop pts (-1) s2 fuel i vs = some out →
      out.getLast? = some (getP pts 0) := by
  intro fuel
  induction fuel with
  | zero => intro i vs out _ h; simp [armLoop] at h
  | succ n ih =>
    intro i vs out hi h
    rw [armLoop] at h
    by_cases hb : skipAux pts (-1) s2 (vs.getLastD default) pts.length i = 0 ∨
        skipAux pts (-1) s2 (vs.getLastD default) pts.length i = (pts.length : ℤ) - 1
    · rw [if_pos hb] at h
      have hle := skipAux_le pts s2 (vs.getLastD default) pts.length i
      have hj0 : skipAux pts (-1) s2 (vs.getLastD default) pts.length i = 0 := by
        rcases hb with h0 | h1
        · exact h0
        · omega
      rw [hj0] at h
      rw [← Option.some.injEq _ _ |>.mp h]
      exact List.getLast?_concat _
    · rw [if_neg hb] at h
      exact ih _ _ _ (le_trans (skipAux_le pts s2 (vs.getLastD default) pts.length i) hi) h

theorem armLoop_getLast_pos (pts : List Point) (s2 : ℚ) :
    ∀ (fuel : ℕ) (i : ℤ) (vs out : List Point), 1 ≤ i →
      armLoop pts 1 s2 fuel i vs = some out →
      out.getLast? = some (getP pts ((pts.length : ℤ) - 1)) := by
  intro fuel
  induction fuel with
  | zero => intro i vs out _ h; simp [armLoop] at h
  | succ n ih =>
    intro i vs out hi h
    rw [armLoop] at h
    by_cases hb : skipAux pts 1 s2 (vs.getLastD default) pts.length i = 0 ∨
        skipAux pts 1 s2 (vs.getLastD default) pts.length i = (pts.length : ℤ) - 1
    · rw [if_pos hb] at h
      have hge := skipAux_ge pts s2 (vs.getLastD default) pts.length i
      have hj1 : skipAux pts 1 s2 (vs.getLastD default) pts.length i =
          (pts.length : ℤ) - 1 := by
        rcases hb with h0 | h1
        · omega
        · exact h1
      rw [hj1] at h
      rw [← Option.some.injEq _ _ |>.mp h]
      exact List.getLast?_concat _
    · rw [if_neg hb] at h
      exact ih _ _ _ (le_trans hi (skipAux_ge pts s2 (vs.getLastD default) pts.length i)) h

theorem resample_ends (pts : List Point) (s2 : ℚ) (fuel : ℕ) (out : List Point)
    (hN : 4 ≤ pts.length) (h : resample pts s2 fuel = some out) :
    out.head? = some (getP pts 0) ∧
    out.getLast? = some (getP pts ((pts.length : ℤ) - 1)) := by
  unfold resample at h
  cases h1 : armLoop pts (-1) s2 fuel (((pts.length + 1) / 2 : ℕ) : ℤ)
      [getP pts (((pts.length + 1) / 2 : ℕ) : ℤ)] with
  | none => rw [h1] at h; simp at h
  | some v1 =>
    rw [h1] at h
    simp only [Option.some_bind] at h
    have hmid_le : (((pts.length + 1) / 2 : ℕ) : ℤ) ≤ (pts.length : ℤ) - 2 := by omega
    have hmid_ge : 1 ≤ (((pts.length + 1) / 2 : ℕ) : ℤ) := by omega
    have hlast1 : v1.getLast? = some (getP pts 0) :=
      armLoop_getLast_neg pts s2 fuel _ _ v1 hmid_le h1
    have h1ne : v1 ≠ [] := by
      obtain ⟨t, ht⟩ := armLoop_append pts (-1) s2 fuel _ _ v1 h1
      simp [ht]
    obtain ⟨t2, ht2⟩ := armLoop_append pts 1 s2 fuel _ _ out h
    constructor
    · rw [ht2, List.head?_append_of_ne_nil _ (by simpa using h1ne), List.head?_reverse,
        hlast1]
    · exact armLoop_getLast_pos pts s2 fuel _ _ out hmid_ge h

theorem blendPoints_length (src : List Point) (com1 com2 : Point) :
    (blendPoints src com1 com2).length = src.length := by
  simp [blendPoints]

theorem normPoints_length (ex : Exemplar) : (normPoints ex).length = ex.points.length := by
  simp [normPoints]

theorem blendPoints_first (src : List Point) (com1 com2 : Point) (hN : 4 ≤ src.length) :
    getP (blendPoints src com1 com2) 0 = com1 := by
  unfold getP blendPoints
  rw [show ((0 : ℤ)).toNat = 0 from rfl]
  rw [List.getD_eq_getElem?_getD, List.getElem?_map, List.getElem?_range (by omega)]
  simp only [Option.map_some', Option.getD_some]
  rw [if_pos (show 0 < src.length / 4 by omega)]
  ext <;> simp

theorem blendPoints_last (src : List Point) (com1 com2 : Point) (hN : 4 ≤ src.length) :
    getP (blendPoints src com1 com2) ((src.length : ℤ) - 1) = com2 := by
  unfold getP blendPoints
  have ht : ((src.length : ℤ) - 1).toNat = src.length - 1 := by omega
  rw [ht, List.getD_eq_getElem?_getD, List.getElem?_map, List.getElem?_range (by omega)]
  simp only [Option.map_some', Option.getD_some]
  rw [if_neg (show ¬(src.length - 1 < src.length / 4) by omega),
    if_pos (show src.length - src.length / 4 ≤ src.length - 1 by omega)]
  rw [show src.length - 1 - (src.length - 1) = 0 from by omega]
  ext <;> simp

/-- C7 is false as stated: for the non-degenerate exemplar `exC7` with
`N = 3` accumulation slots, `K = floor(0.25 * 3) = 0`, so the convergence
loops run zero times and the first point of the finalized polyline is
`(9,0,0)`, not the first node centre of mass `(0,0,0)`. -/
theorem claim7_counterexample :
    exC7.weight = 1 ∧ decide (exC7.nodes.1 = exC7.nodes.2) = false ∧
    c7points = [⟨9, 0, 0⟩, ⟨9, 0, 0⟩, ⟨9, 0, 0⟩] ∧
    exC7.node_COMs.1 = ⟨0, 0, 0⟩ ∧
    decide ((⟨9, 0, 0⟩ : Point) = ⟨0, 0, 0⟩) = false := by
  decide

/-- C7 amended: *provided the accumulation resolution is at least 4* (so
`K = floor(0.25 * N) ≥ 1`), whenever `finalize` returns on a
non-degenerate exemplar, the blend forces slot `0` to `node_COMs.first`
and slot `N-1` to `node_COMs.second`, and the first and last points of the
final resampled polyline equal the two node centres of mass exactly. -/
theorem claim7_endpoints_anchored (ex : Exemplar) (stepSize : ℚ) (fuel : ℕ)
    (v : Exemplar) (hN : 4 ≤ ex.points.length) (hf : ex.is_finalized = false)
    (hw : ¬ex.weight = 0) (hd : ¬ex.nodes.1 = ex.nodes.2)
    (hrun : finalizeEx stepSize fuel ex = .ok (some v)) :
    v.points.head? = some ex.node_COMs.1 ∧
    v.points.getLast? = some ex.node_COMs.2 := by
  rw [finalizeEx_nondeg stepSize fuel ex hf hw hd] at hrun
  cases hres : resample (blendPoints (normPoints ex) ex.node_COMs.1 ex.node_COMs.2)
      (stepSize ^ 2) fuel with
  | none => rw [hres] at hrun; simp at hrun
  | some verts =>
    rw [hres] at hrun
    simp only [Option.map_some'] at hrun
    have hv : v.points = verts := by
      cases hrun
      rfl
    have hlen : (blendPoints (normPoints ex) ex.node_COMs.1 ex.node_COMs.2).length =
        ex.points.length := by
      rw [blendPoints_length, normPoints_length]
    obtain ⟨hhead, hlast⟩ := resample_ends _ (stepSize ^ 2) fuel verts (by omega) hres
    have hfir := blendPoints_first (normPoints ex) ex.node_COMs.1 ex.node_COMs.2
      (by rw [normPoints_length]; exact hN)
    have hsec := blendPoints_last (normPoints ex) ex.node_COMs.1 ex.node_COMs.2
      (by rw [normPoints_length]; exact hN)
    constructor
    · rw [hv, hhead, hfir]
    · rw [hv, hlast]
      rw [show ((blendPoints (normPoints ex) ex.node_COMs.1 ex.node_COMs.2).length : ℤ) =
        ((normPoints ex).length : ℤ) from by rw [blendPoints_length]]
      rw [hsec]

/-- Witness for the amended C7: the spec's concrete scenario (`N = 4`,
step size `5/2`) finalizes to a polyline starting at `(0,0,0)` and ending
at `(10,0,0)`, the two node centres of mass. -/
theorem claim7_endpoints_anchored_witness :
    exWout.points.head? = some exW.node_COMs.1 ∧
    exWout.points.getLast? = some exW.node_COMs.2 :=
  claim7_endpoints_anchored exW (5/2) 50 exWout (by decide) rfl (by decide) (by decide)
    (by rfl)

/-! ## Claim C1 -/

theorem sampleBranch_def (pts : List Point) (t : ℚ) :
    sampleBranch pts t =
      if (⌊t⌋).toNat % 2 ^ 32 = pts.length - 1 then pts.getD (pts.length - 1) default
      else ((1 - (t - (((⌊t⌋).toNat % 2 ^ 32 : ℕ) : ℚ))) •
          pts.getD ((⌊t⌋).toNat % 2 ^ 32) default) +
        ((t - (((⌊t⌋).toNat % 2 ^ 32 : ℕ) : ℚ)) •
          pts.getD ((⌊t⌋).toNat % 2 ^ 32 + 1) default) := rfl

theorem specBranch_def (pts : List Point) (t : ℚ) :
    specBranch pts t =
      if ⌊t⌋ = (pts.length : ℤ) - 1 then pts.getD (pts.length - 1) default
      else ((1 - (t - ((⌊t⌋ : ℤ) : ℚ))) • pts.getD (⌊t⌋).toNat default) +
        ((t - ((⌊t⌋ : ℤ) : ℚ)) • pts.getD ((⌊t⌋).toNat + 1) default) := rfl

theorem sampleBranch_eq_spec (pts : List Point) (t : ℚ) (h0 : 0 ≤ t)
    (ht : t ≤ (pts.length : ℚ) - 1) (h32 : pts.length ≤ 2 ^ 32) :
    sampleBranch pts t = specBranch pts t := by
  have hfl0 : 0 ≤ ⌊t⌋ := Int.floor_nonneg.mpr h0
  have hM1 : 1 ≤ pts.length := by
    by_contra hc
    have h0' : pts.length = 0 := by omega
    rw [h0'] at ht
    norm_num at ht
    linarith
  have hflM : ⌊t⌋ ≤ (pts.length : ℤ) - 1 := by
    have h1 := Int.floor_le_floor ht
    rwa [show ((pts.length : ℚ) - 1) = (((pts.length : ℤ) - 1 : ℤ) : ℚ) by push_cast; ring,
      Int.floor_intCast] at h1
  have h32' : (pts.length : ℤ) ≤ 2 ^ 32 := by exact_mod_cast h32
  have htn : (⌊t⌋).toNat % 2 ^ 32 = (⌊t⌋).toNat := Nat.mod_eq_of_lt (by omega)
  have hcast : (((⌊t⌋).toNat : ℕ) : ℚ) = ((⌊t⌋ : ℤ) : ℚ) := by
    exact_mod_cast congrArg (fun z : ℤ => (z : ℚ)) (Int.toNat_of_nonneg hfl0)
  have hcond : ((⌊t⌋).toNat = pts.length - 1) ↔ (⌊t⌋ = (pts.length : ℤ) - 1) := by omega
  rw [sampleBranch_def, specBranch_def, htn, hcast]
  exact if_congr hcond rfl rfl

theorem sampleAt_def (pts : List Point) (rev : Bool) (N i : ℕ) :
    sampleAt pts rev N i =
      sampleBranch pts (if rev then ((pts.length - 1 : ℕ) : ℚ) -
          ((((pts.length - 1) * i) % 2 ^ 64 : ℕ) : ℚ) / (N : ℚ)
        else ((((pts.length - 1) * i) % 2 ^ 64 : ℕ) : ℚ) / (N : ℚ)) := rfl

theorem specSampledPoint_def (pts : List Point) (rev : Bool) (N i : ℕ) :
    specSampledPoint pts rev N i =
      specBranch pts (if rev then ((pts.length : ℚ) - 1) - ((pts.length : ℚ) - 1) * i / N
        else ((pts.length : ℚ) - 1) * i / N) := rfl

theorem sampleAt_eq_spec (pts : List Point) (rev : Bool) (N i : ℕ)
    (hM : 1 ≤ pts.length) (hi : i < N) (hM32 : pts.length ≤ 2 ^ 32)
    (hN32 : N ≤ 2 ^ 32) :
    sampleAt pts rev N i = specSampledPoint pts rev N i := by
  have hN0 : 0 < N := by omega
  have hNq : (0 : ℚ) < (N : ℚ) := by exact_mod_cast hN0
  have hP : (pts.length - 1) * i % 2 ^ 64 = (pts.length - 1) * i := by
    apply Nat.mod_eq_of_lt
    calc (pts.length - 1) * i < 2 ^ 32 * 2 ^ 32 :=
      Nat.mul_lt_mul_of_lt_of_lt (by omega) (by omega)
    _ = 2 ^ 64 := by norm_num
  have hcast : (((pts.length - 1) * i : ℕ) : ℚ) = ((pts.length : ℚ) - 1) * i := by
    push_cast [hM]
    ring
  have hM' : (1 : ℚ) ≤ (pts.length : ℚ) := by exact_mod_cast hM
  have ht0 : (0 : ℚ) ≤ ((pts.length : ℚ) - 1) * i / (N : ℚ) := by
    apply div_nonneg _ (le_of_lt hNq)
    have hi0 : (0 : ℚ) ≤ (i : ℚ) := by positivity
    nlinarith
  have htM : ((pts.length : ℚ) - 1) * i / (N : ℚ) ≤ (pts.length : ℚ) - 1 := by
    rw [div_le_iff₀ hNq]
    have hiN : (i : ℚ) ≤ (N : ℚ) := by exact_mod_cast le_of_lt hi
    nlinarith
  rw [sampleAt_def, specSampledPoint_def, hP, hcast, Nat.cast_sub hM, Nat.cast_one]
  cases rev with
  | false => exact sampleBranch_eq_spec pts _ ht0 htM hM32
  | true =>
    have hb : (0 : ℚ) ≤ (pts.length : ℚ) - 1 - ((pts.length : ℚ) - 1) * i / N := by
      linarith
    have hb2 : (pts.length : ℚ) - 1 - ((pts.length : ℚ) - 1) * i / N ≤
        (pts.length : ℚ) - 1 := by linarith
    exact sampleBranch_eq_spec pts _ hb hb2 hM32

theorem addCore_points_getD (ex : Exemplar) (s : Streamline) (i : ℕ)
    (hi : i < ex.points.length) :
    (addCore ex s).points.getD i default =
      ex.points.getD i default +
        s.weight • sampleAt s.points (decide (s.nodes ≠ ex.nodes)) ex.points.length i := by
  unfold addCore
  rw [List.getD_eq_getElem?_getD, List.getElem?_map, List.getElem?_range hi]
  simp

/-- C1: for every Exemplar (accumulation resolution `N`) and every
streamline of length `M ≥ 2` whose node pair matches the Exemplar's —
forward or reversed — `add` succeeds and updates each slot `i < N` by the
spec's stated rule: `t = (M-1)*i/N` (replaced by `M-1-t` when reversed),
`lower = floor t`, `mu = t - lower`, sampled point `streamline[M-1]` if
`lower = M-1` else `(1-mu)*streamline[lower] + mu*streamline[upper]`, and
`points[i]` is incremented by `weight * sampled_point`; the running weight
grows by the streamline's weight.  (The two `2 ^ 32` size hypotheses
discharge the machine-width reductions of the embedding.) -/
theorem claim1_add_slot_rule (ex : Exemplar) (s : Streamline) (i : ℕ)
    (hmatch : s.nodes = ex.nodes ∨ (s.nodes.1 = ex.nodes.2 ∧ s.nodes.2 = ex.nodes.1))
    (hf : ex.is_finalized = false) (hM : 2 ≤ s.points.length)
    (hi : i < ex.points.length)
    (hM32 : s.points.length ≤ 2 ^ 32) (hN32 : ex.points.length ≤ 2 ^ 32) :
    addStreamline ex s = .ok (addCore ex s) ∧
    (addCore ex s).weight = ex.weight + s.weight ∧
    (addCore ex s).points.getD i default =
      ex.points.getD i default +
        s.weight • specSampledPoint s.points (decide (s.nodes ≠ ex.nodes))
          ex.points.length i := by
  refine ⟨?_, rfl, ?_⟩
  · unfold addStreamline
    rw [if_neg (by simp [hf]), if_pos hmatch]
  · rw [addCore_points_getD ex s i hi,
      sampleAt_eq_spec s.points _ ex.points.length i (by omega) hi hM32 hN32]

/-- Witness for C1: the spec's concrete scenario streamline added to an
empty 4-slot accumulator, checked at slot 1. -/
theorem claim1_add_slot_rule_witness :
    addStreamline exAcc sW1 = .ok (addCore exAcc sW1) ∧
    (addCore exAcc sW1).weight = exAcc.weight + sW1.weight ∧
    (addCore exAcc sW1).points.getD 1 default =
      exAcc.points.getD 1 default +
        sW1.weight • specSampledPoint sW1.points (decide (sW1.nodes ≠ exAcc.nodes))
          exAcc.points.length 1 :=
  claim1_add_slot_rule exAcc sW1 1 (Or.inl rfl) rfl (by decide) (by decide)
    (by decide) (by decide)

/-! ## Claim C5 -/

theorem floor_nat_div (a b : ℕ) (hb : 0 < b) :
    ⌊(a : ℚ) / (b : ℚ)⌋ = ((a / b : ℕ) : ℤ) := by
  have hbq : (0 : ℚ) < (b : ℚ) := by exact_mod_cast hb
  rw [Int.floor_eq_iff]
  constructor
  · rw [Int.cast_natCast, le_div_iff₀ hbq]
    exact_mod_cast Nat.div_mul_le_self a b
  · rw [Int.cast_natCast, div_lt_iff₀ hbq]
    have hlt : a < (a / b + 1) * b := by
      have h1 := Nat.div_add_mod a b
      have h2 := Nat.mod_lt a hb
      calc a = b * (a / b) + a % b := h1.symm
        _ < b * (a / b) + b := by omega
        _ = (a / b + 1) * b := by ring
    exact_mod_cast hlt

theorem getD_reverse (pts : List Point) (j : ℕ) (hj : j < pts.length) (d : Point) :
    pts.reverse.getD j d = pts.getD (pts.length - 1 - j) d := by
  rw [List.getD_eq_getElem?_getD, List.getD_eq_getElem?_getD, List.getElem?_reverse hj]

theorem specSampledPoint_true_def (pts : List Point) (N i : ℕ) :
    specSampledPoint pts true N i =
      specBranch pts (((pts.length : ℚ) - 1) - ((pts.length : ℚ) - 1) * i / N) := rfl

theorem specSampledPoint_false_def (pts : List Point) (N i : ℕ) :
    specSampledPoint pts false N i =
      specBranch pts (((pts.length : ℚ) - 1) * i / N) := rfl

theorem specSample_reverse (pts : List Point) (N i : ℕ)
    (hM : 2 ≤ pts.length) (hi : i < N) :
    specSampledPoint pts.reverse true N i = specSampledPoint pts false N i := by
  have hN0 : 0 < N := by omega
  have hNq : (0 : ℚ) < (N : ℚ) := by exact_mod_cast hN0
  rw [specSampledPoint_true_def, specSampledPoint_false_def, List.length_reverse]
  set q : ℕ := (pts.length - 1) * i / N with hq
  set r : ℕ := (pts.length - 1) * i % N with hr
  have hdm : N * q + r = (pts.length - 1) * i := Nat.div_add_mod _ N
  have hrN : r < N := Nat.mod_lt _ hN0
  have hPlt : (pts.length - 1) * i < (pts.length - 1) * N :=
    mul_lt_mul_of_pos_left hi (by omega)
  have hqM : q ≤ pts.length - 2 := by
    have hq1 : (pts.length - 1) * i / N < pts.length - 1 :=
      Nat.div_lt_of_lt_mul (by rw [mul_comm N (pts.length - 1)]; exact hPlt)
    omega
  have ht0 : ((pts.length : ℚ) - 1) * i / N = (((pts.length - 1) * i : ℕ) : ℚ) / N := by
    push_cast [(by omega : 1 ≤ pts.length)]
    ring
  have hfl : ⌊((pts.length : ℚ) - 1) * i / N⌋ = (q : ℤ) := by
    rw [ht0, floor_nat_div _ N hN0]
  clear_value q r
  clear hq hr
  by_cases hr0 : r = 0
  · -- the continuous index lands exactly on an input point
    have hPq : (pts.length - 1) * i = N * q := by omega
    have htq : ((pts.length : ℚ) - 1) * i / N = (q : ℚ) := by
      rw [ht0, hPq]
      push_cast
      field_simp
    rw [htq]
    have ht' : (pts.length : ℚ) - 1 - (q : ℚ) = ((pts.length - 1 - q : ℕ) : ℚ) := by
      push_cast [(by omega : q ≤ pts.length - 1), (by omega : 1 ≤ pts.length)]
      ring
    rw [ht', specBranch_def, specBranch_def, List.length_reverse]
    simp only [Int.floor_natCast, Int.toNat_natCast, Int.cast_natCast]
    rw [if_neg (show ¬((q : ℤ) = (pts.length : ℤ) - 1) by omega)]
    by_cases hq0 : q = 0
    · rw [if_pos (show ((pts.length - 1 - q : ℕ) : ℤ) = (pts.length : ℤ) - 1 by omega)]
      rw [getD_reverse pts (pts.length - 1) (by omega) default]
      rw [show pts.length - 1 - (pts.length - 1) = 0 from by omega, hq0]
      ext <;> simp
    · rw [if_neg (show ¬(((pts.length - 1 - q : ℕ) : ℤ) = (pts.length : ℤ) - 1) by omega)]
      rw [getD_reverse pts (pts.length - 1 - q) (by omega) default,
        getD_reverse pts (pts.length - 1 - q + 1) (by omega) default]
      rw [show pts.length - 1 - (pts.length - 1 - q) = q from by omega,
        show pts.length - 1 - (pts.length - 1 - q + 1) = q - 1 from by omega]
      ext <;> simp
  · -- the continuous index lies strictly between two input points
    have hfrac0 : (0 : ℚ) < (r : ℚ) / N := by
      apply div_pos _ hNq
      exact_mod_cast Nat.pos_of_ne_zero hr0
    have hfrac1 : (r : ℚ) / N < 1 := by
      rw [div_lt_one hNq]
      exact_mod_cast hrN
    have ht0split : ((pts.length : ℚ) - 1) * i / N = (q : ℚ) + (r : ℚ) / N := by
      rw [ht0, show ((pts.length - 1) * i : ℕ) = N * q + r from hdm.symm]
      push_cast
      field_simp
      ring
    have hcast2 : ((pts.length - 2 - q : ℕ) : ℚ) = (pts.length : ℚ) - 2 - q := by
      push_cast [(by omega : q ≤ pts.length - 2), (by omega : 2 ≤ pts.length)]
      ring
    have hflrev : ⌊(pts.length : ℚ) - 1 - ((pts.length : ℚ) - 1) * i / N⌋ =
        ((pts.length - 2 - q : ℕ) : ℤ) := by
      rw [ht0split, Int.floor_eq_iff]
      rw [Int.cast_natCast, hcast2]
      constructor
      · linarith
      · linarith
    rw [specBranch_def, specBranch_def, List.length_reverse, hfl, hflrev]
    simp only [Int.toNat_natCast, Int.cast_natCast]
    rw [if_neg (show ¬((q : ℤ) = (pts.length : ℤ) - 1) by omega),
      if_neg (show ¬(((pts.length - 2 - q : ℕ) : ℤ) = (pts.length : ℤ) - 1) by omega)]
    rw [getD_reverse pts (pts.length - 2 - q) (by omega) default,
      getD_reverse pts (pts.length - 2 - q + 1) (by omega) default]
    rw [show pts.length - 1 - (pts.length - 2 - q) = q + 1 from by omega,
      show pts.length - 1 - (pts.length - 2 - q + 1) = q from by omega]
    have hmu : ((pts.length : ℚ) - 1) * i / N - (q : ℚ) = (r : ℚ) / N := by
      rw [ht0split]; ring
    have hmu' : (pts.length : ℚ) - 1 - ((pts.length : ℚ) - 1) * i / N - ((pts.length - 2 - q : ℕ) : ℚ) =
        1 - (r : ℚ) / N := by
      rw [ht0split, hcast2]; ring
    rw [hmu, hmu']
    ext <;> simp <;> ring

theorem sampleAt_reverse (pts : List Point) (N i : ℕ)
    (hM : 2 ≤ pts.length) (hi : i < N)
    (hM32 : pts.length ≤ 2 ^ 32) (hN32 : N ≤ 2 ^ 32) :
    sampleAt pts.reverse true N i = sampleAt pts false N i := by
  rw [sampleAt_eq_spec pts.reverse true N i (by simp; omega) hi (by simpa using hM32) hN32,
    sampleAt_eq_spec pts false N i (by omega) hi hM32 hN32]
  exact specSample_reverse pts N i hM hi

/-- C5: adding a streamline `S` with node order matching the exemplar, and
adding the point-reversed streamline with the swapped node order at the
same weight, produce identical accumulator states — and therefore
identical finalize output.  (Node pair must be non-diagonal so the
reversed copy is actually classified as reversed.) -/
theorem claim5_orientation_invariance (ex : Exemplar) (s : Streamline)
    (stepSize : ℚ) (fuel : ℕ)
    (hmatch : s.nodes = ex.nodes) (hd : ex.nodes.1 ≠ ex.nodes.2)
    (hM : 2 ≤ s.points.length)
    (hM32 : s.points.length ≤ 2 ^ 32) (hN32 : ex.points.length ≤ 2 ^ 32)
    (hf : ex.is_finalized = false) :
    addStreamline ex s = addStreamline ex (reverseStreamline s) ∧
    finalizeEx stepSize fuel (addCore ex s) =
      finalizeEx stepSize fuel (addCore ex (reverseStreamline s)) := by
  have hrev1 : decide (s.nodes ≠ ex.nodes) = false := by simp [hmatch]
  have hrev2 : decide ((reverseStreamline s).nodes ≠ ex.nodes) = true := by
    rw [decide_eq_true_eq]
    show (s.nodes.2, s.nodes.1) ≠ ex.nodes
    rw [hmatch]
    intro hcon
    exact hd (congrArg Prod.fst hcon).symm
  have hcore : addCore ex s = addCore ex (reverseStreamline s) := by
    unfold addCore
    rw [hrev1, hrev2]
    have hmap : (List.range ex.points.length).map
        (fun i => ex.points.getD i default +
          s.weight • sampleAt s.points false ex.points.length i) =
        (List.range ex.points.length).map
        (fun i => ex.points.getD i default +
          (reverseStreamline s).weight •
            sampleAt (reverseStreamline s).points true ex.points.length i) := by
      apply List.map_congr_left
      intro j hj
      rw [List.mem_range] at hj
      rw [show (reverseStreamline s).weight = s.weight from rfl,
        show (reverseStreamline s).points = s.points.reverse from rfl,
        sampleAt_reverse s.points ex.points.length j hM hj hM32 hN32]
    rw [hmap]
    rfl
  have h1 : (reverseStreamline s).nodes.1 = ex.nodes.2 := by
    rw [show (reverseStreamline s).nodes.1 = s.nodes.2 from rfl, hmatch]
  have h2 : (reverseStreamline s).nodes.2 = ex.nodes.1 := by
    rw [show (reverseStreamline s).nodes.2 = s.nodes.1 from rfl, hmatch]
  constructor
  · unfold addStreamline
    rw [if_neg (show ¬(ex.is_finalized = true) by simp [hf]),
      if_neg (show ¬(ex.is_finalized = true) by simp [hf]),
      if_pos (Or.inl hmatch), if_pos (Or.inr ⟨h1, h2⟩), hcore]
  · rw [hcore]

/-- Witness for C5: the spec's 5-point streamline versus its reversal with
swapped node order, on a fresh 4-slot accumulator. -/
theorem claim5_orientation_invariance_witness :
    addStreamline exAcc sW1 = addStreamline exAcc (reverseStreamline sW1) ∧
    finalizeEx 1 20 (addCore exAcc sW1) =
      finalizeEx 1 20 (addCore exAcc (reverseStreamline sW1)) :=
  claim5_orientation_invariance exAcc sW1 1 20 rfl (by decide) (by decide) (by decide)
    (by decide) rfl

/-! ## Claim C6 -/

@[ext] theorem Exemplar.ext_fields {e1 e2 : Exemplar}
    (h1 : e1.points = e2.points) (h2 : e1.weight = e2.weight)
    (h3 : e1.nodes = e2.nodes) (h4 : e1.node_COMs = e2.node_COMs)
    (h5 : e1.is_finalized = e2.is_finalized) : e1 = e2 := by
  cases e1; cases e2
  cases h1; cases h2; cases h3; cases h4; cases h5
  rfl

theorem addCore_length (ex : Exemplar) (s : Streamline) :
    (addCore ex s).points.length = ex.points.length := by
  simp [addCore]

theorem addCore_nodes (ex : Exemplar) (s : Streamline) :
    (addCore ex s).nodes = ex.nodes := rfl

theorem addCore_flag (ex : Exemplar) (s : Streamline) :
    (addCore ex s).is_finalized = ex.is_finalized := rfl

theorem addCore_weight (ex : Exemplar) (s : Streamline) :
    (addCore ex s).weight = ex.weight + s.weight := rfl

theorem addCore_points_getElem (ex : Exemplar) (s : Streamline) (j : ℕ)
    (hj : j < (addCore ex s).points.length) :
    (addCore ex s).points[j] =
      ex.points.getD j default +
        s.weight • sampleAt s.points (decide (s.nodes ≠ ex.nodes)) ex.points.length j := by
  unfold addCore
  simp [List.getElem_map, List.getElem_range]

theorem addCore_comm (ex : Exemplar) (s1 s2 : Streamline) :
    addCore (addCore ex s1) s2 = addCore (addCore ex s2) s1 := by
  apply Exemplar.ext_fields
  · apply List.ext_getElem
    · rw [addCore_length, addCore_length, addCore_length, addCore_length]
    · intro j hj1 hj2
      rw [addCore_points_getElem _ s2 j hj1, addCore_points_getElem _ s1 j hj2]
      rw [addCore_nodes, addCore_nodes, addCore_length, addCore_length]
      have hj : j < ex.points.length := by
        rw [addCore_length, addCore_length] at hj1
        exact hj1
      rw [List.getD_eq_getElem?_getD, List.getD_eq_getElem?_getD,
        List.getElem?_eq_getElem ((addCore_length ex s1).symm ▸ hj),
        List.getElem?_eq_getElem ((addCore_length ex s2).symm ▸ hj)]
      simp only [Option.getD_some]
      rw [addCore_points_getElem ex s1 j ((addCore_length ex s1).symm ▸ hj),
        addCore_points_getElem ex s2 j ((addCore_length ex s2).symm ▸ hj)]
      ext <;> simp <;> ring
  · rw [addCore_weight, addCore_weight, addCore_weight, addCore_weight]
    ring
  · rfl
  · rfl
  · rfl

theorem addAll_eq_foldl (l : List Streamline) : ∀ ex : Exemplar,
    ex.is_finalized = false →
    (∀ s ∈ l, s.nodes = ex.nodes ∨ (s.nodes.1 = ex.nodes.2 ∧ s.nodes.2 = ex.nodes.1)) →
    addAll ex l = .ok (l.foldl addCore ex) := by
  induction l with
  | nil => intro ex _ _; rfl
  | cons s rest ih =>
    intro ex hf hv
    show (addStreamline ex s).bind _ = _
    rw [show addStreamline ex s = .ok (addCore ex s) from by
      unfold addStreamline
      rw [if_neg (by simp [hf]), if_pos (hv s (List.mem_cons_self s rest))]]
    show addAll (addCore ex s) rest = _
    rw [ih (addCore ex s) (by rw [addCore_flag]; exact hf)
      (fun t ht => by rw [addCore_nodes]; exact hv t (List.mem_cons_of_mem s ht))]
    rfl

theorem foldl_addCore_weight (l : List Streamline) : ∀ ex : Exemplar,
    (l.foldl addCore ex).weight = ex.weight + (l.map Streamline.weight).sum := by
  induction l with
  | nil => intro ex; simp
  | cons s rest ih =>
    intro ex
    show (rest.foldl addCore (addCore ex s)).weight = _
    rw [ih, addCore_weight]
    simp only [List.map_cons, List.sum_cons]
    ring

/-- C6: a finite sequence of `add` calls (with node pairs matching forward
or reversed) all succeed, the resulting weight is the sum of the
contributed weights (starting from a fresh zero-weight accumulator), and
both the weight and the points buffer are invariant under any permutation
of the call order. -/
theorem claim6_weight_conservation_commutative (ex : Exemplar)
    (l1 l2 : List Streamline) (hp : l1.Perm l2)
    (hf : ex.is_finalized = false) (hw0 : ex.weight = 0)
    (hv : ∀ s ∈ l1, s.nodes = ex.nodes ∨
      (s.nodes.1 = ex.nodes.2 ∧ s.nodes.2 = ex.nodes.1)) :
    addAll ex l1 = .ok (l1.foldl addCore ex) ∧
    addAll ex l2 = .ok (l1.foldl addCore ex) ∧
    (l1.foldl addCore ex).weight = (l1.map Streamline.weight).sum := by
  have hrc : RightCommutative addCore := ⟨fun b a1 a2 => addCore_comm b a1 a2⟩
  have hfold : l1.foldl addCore ex = l2.foldl addCore ex := hp.foldl_eq ex
  refine ⟨addAll_eq_foldl l1 ex hf hv, ?_, ?_⟩
  · rw [hfold]
    exact addAll_eq_foldl l2 ex hf (fun s hs => hv s (hp.mem_iff.mpr hs))
  · rw [foldl_addCore_weight, hw0, zero_add]

/-- Witness for C6: the two test streamlines added in both orders. -/
theorem claim6_weight_conservation_commutative_witness :
    addAll exAcc [sW1, sW2] = .ok ([sW1, sW2].foldl addCore exAcc) ∧
    addAll exAcc [sW2, sW1] = .ok ([sW1, sW2].foldl addCore exAcc) ∧
    ([sW1, sW2].foldl addCore exAcc).weight =
      ([sW1, sW2].map Streamline.weight).sum :=
  claim6_weight_conservation_commutative exAcc [sW1, sW2] [sW2, sW1] (by decide) rfl rfl
    (by decide)

/-! ## Claim C8 -/

theorem buildFromAcc_cases (a : HAcc) :
    (eIsOk (buildFromAcc a) = true ↔ ¬ mandatoryFailure a) ∧
    (¬ mandatoryFailure a → buildFromAcc a = .ok (mkHeader a)) := by
  unfold buildFromAcc
  split_ifs with h1 h2 h3 h4 h5 h6 h7 h8
  · have hmf : mandatoryFailure a := Or.inl h1
    exact ⟨by simp [eIsOk, hmf], fun hnd => absurd hmf hnd⟩
  · have hmf : mandatoryFailure a := Or.inr (Or.inl h2)
    exact ⟨by simp [eIsOk, hmf], fun hnd => absurd hmf hnd⟩
  · have hmf : mandatoryFailure a := Or.inr (Or.inr (Or.inl h3))
    exact ⟨by simp [eIsOk, hmf], fun hnd => absurd hmf hnd⟩
  · have hmf : mandatoryFailure a := Or.inr (Or.inr (Or.inr (Or.inl h4)))
    exact ⟨by simp [eIsOk, hmf], fun hnd => absurd hmf hnd⟩
  · have hmf : mandatoryFailure a := Or.inr (Or.inr (Or.inr (Or.inr (Or.inl h5))))
    exact ⟨by simp [eIsOk, hmf], fun hnd => absurd hmf hnd⟩
  · have hmf : mandatoryFailure a :=
      Or.inr (Or.inr (Or.inr (Or.inr (Or.inr (Or.inl h6)))))
    exact ⟨by simp [eIsOk, hmf], fun hnd => absurd hmf hnd⟩
  · have hmf : mandatoryFailure a :=
      Or.inr (Or.inr (Or.inr (Or.inr (Or.inr (Or.inr (Or.inl h7))))))
    exact ⟨by simp [eIsOk, hmf], fun hnd => absurd hmf hnd⟩
  · have hmf : mandatoryFailure a :=
      Or.inr (Or.inr (Or.inr (Or.inr (Or.inr (Or.inr (Or.inr h8))))))
    exact ⟨by simp [eIsOk, hmf], fun hnd => absurd hmf hnd⟩
  · have hmf : ¬ mandatoryFailure a := by
      intro hmf
      rcases hmf with c | c | c | c | c | c | c | c
      · exact h1 c
      · exact h2 c
      · exact h3 c
      · exact h4 c
      · exact h5 c
      · exact h6 c
      · exact h7 c
      · exact h8 c
    exact ⟨by simp [eIsOk, hmf], fun _ => rfl⟩

theorem mkHeader_dw_none (a : HAcc) (hdw : a.dw.length % 4 ≠ 0) :
    (mkHeader a).dw_scheme = none := by
  show (if a.dw ≠ [] ∧ a.dw.length % 4 = 0 then some a.dw else none) = none
  rw [if_neg]
  tauto

/-- C8: the embedded `read_mrtrix_header` fails exactly when one of the
claim's mandatory conditions holds — `dim`, `vox`, `datatype` or `layout`
absent, a dimension `< 1`, a checked voxel size `< 0`, a nonempty
transform with fewer than 9 values, or a nonempty scaling list of length
other than 2 — while a diffusion scheme whose value count is not a
multiple of 4 is never fatal: the header is still produced with all other
fields set and the scheme dropped.  (`DataType::parse` and `Axis::parse`
live outside the two source files and are modelled as non-failing.) -/
theorem claim8_header_failure_iff (entries : List HEntry) :
    (eIsOk (readHeader entries) = true ↔ ¬ mandatoryFailure (accumulate entries)) ∧
    (¬ mandatoryFailure (accumulate entries) →
      readHeader entries = .ok (mkHeader (accumulate entries)) ∧
      ((accumulate entries).dw.length % 4 ≠ 0 →
        (mkHeader (accumulate entries)).dw_scheme = none)) := by
  refine ⟨(buildFromAcc_cases (accumulate entries)).1, fun hok => ⟨?_, ?_⟩⟩
  · exact (buildFromAcc_cases (accumulate entries)).2 hok
  · exact mkHeader_dw_none (accumulate entries)

/-- Witness for C8: a header with valid mandatory fields and a malformed
3-value diffusion scheme parses successfully with the scheme dropped. -/
theorem claim8_header_failure_iff_witness :
    eIsOk (readHeader ents0) = true ∧
    (mkHeader (accumulate ents0)).dw_scheme = none :=
  ⟨(claim8_header_failure_iff ents0).1.mpr (by decide),
    ((claim8_header_failure_iff ents0).2 (by decide)).2 (by decide)⟩

end MRtrixModel
